import Mathlib

/-!
Verification of the Game of Life simulation core.

The embedding below follows the reference implementation (`GameOfLife.py`,
with the convolution step of `GameOfLife_Gemini.py` for the optimized
neighbor count).  Grids are row-major matrices of integer cell values, as
in the numpy arrays of the source; the grid dimensions `H`/`W` stand for
the `GRID_HEIGHT`/`GRID_WIDTH` configured at creation.
-/

/-- A grid: row-major matrix of integer cell values (a numpy 2-D int array). -/
abbrev Grid := List (List Int)

/-- Read a cell.  Out-of-range reads return 0; the source always checks
bounds before reading, so this default is never observed in-bounds. -/
def cell (g : Grid) (r c : Nat) : Int := (g.getD r []).getD c 0

/-- Write a single cell (`self.grid[r, c] = v`).  Out-of-range writes are
dropped; the source always checks bounds before writing. -/
def setCell (g : Grid) (r c : Nat) (v : Int) : Grid :=
  g.set r ((g.getD r []).set c v)

/-- The grid has `H` rows of `W` cells each. -/
def gridShape (H W : Nat) (g : Grid) : Prop :=
  g.length = H ∧ ∀ row ∈ g, row.length = W

/-- Every stored cell value is 0 or 1. -/
def gridBinary (g : Grid) : Prop :=
  ∀ row ∈ g, ∀ v ∈ row, v = 0 ∨ v = 1

/-- A well-formed grid: `H × W` shape with binary cells. -/
def gridWF (H W : Nat) (g : Grid) : Prop := gridShape H W g ∧ gridBinary g

instance : DecidablePred (gridBinary) := fun g => by
  unfold gridBinary; infer_instance

instance (H W : Nat) : Decidable (gridShape H W g) := by
  unfold gridShape; infer_instance

instance (H W : Nat) : Decidable (gridWF H W g) := by
  unfold gridWF; infer_instance

/-- The neighbor offsets iterated by the source: `for dr in [-1, 0, 1]`. -/
def offs : List Int := [-1, 0, 1]

/-- GameOfLife.get_neighbors: clamped Moore-neighborhood sum.  Offsets
leading outside `[0,H) × [0,W)` are skipped, as is the center `(0,0)`. -/
def get_neighbors (H W : Nat) (g : Grid) (row col : Nat) : Int :=
  (offs.map fun dr =>
    (offs.map fun dc =>
      if dr = 0 ∧ dc = 0 then 0
      else
        if 0 ≤ (row : Int) + dr ∧ (row : Int) + dr < (H : Int) ∧
           0 ≤ (col : Int) + dc ∧ (col : Int) + dc < (W : Int) then
          cell g ((row : Int) + dr).toNat ((col : Int) + dc).toNat
        else 0).sum).sum

/-- The per-cell transition of GameOfLife.update_grid: an alive cell
(value 1) stays alive iff the neighbor count is 2 or 3; any other cell
becomes alive iff the count is exactly 3. -/
def life_rule (old n : Int) : Int :=
  if old = 1 then (if n = 2 ∨ n = 3 then 1 else 0)
  else (if n = 3 then 1 else 0)

/-- GameOfLife.update_grid, grid part: the new grid is freshly built
(np.zeros plus writes) and every cell is computed from the pre-step grid
`g` only; `births` and `deaths` are the loop accumulators. -/
def update_grid (H W : Nat) (g : Grid) : Grid × Nat × Nat :=
  let new := (List.range H).map fun r => (List.range W).map fun c =>
    life_rule (cell g r c) (get_neighbors H W g r c)
  let births := (List.range H).foldl (fun acc r =>
    (List.range W).foldl (fun acc2 c =>
      if cell g r c ≠ 1 ∧ get_neighbors H W g r c = 3 then acc2 + 1 else acc2)
      acc) 0
  let deaths := (List.range H).foldl (fun acc r =>
    (List.range W).foldl (fun acc2 c =>
      if cell g r c = 1 ∧ ¬(get_neighbors H W g r c = 2 ∨ get_neighbors H W g r c = 3)
      then acc2 + 1 else acc2) acc) 0
  (new, births, deaths)

/-- The Statistics dataclass.  Fields are Python integers; the float
`runtime` field is wall-clock bookkeeping outside every claim and is
omitted. -/
structure Statistics where
  generation : Int := 0
  population : Int := 0
  births : Int := 0
  deaths : Int := 0
  max_population : Int := 0
  total_births : Int := 0
  total_deaths : Int := 0
deriving DecidableEq

/-- np.sum over the whole grid. -/
def gridSum (g : Grid) : Int := (g.map fun row => row.sum).sum

/-- Number of alive cells (cells equal to 1) of a grid. -/
def countAlive (g : Grid) : Int :=
  ((g.map fun row => row.countP (fun v => v == 1)).sum : Nat)

/-- GameOfLife.update_grid, statistics part: after the new grid is
computed the statistics are updated in place exactly as in the source. -/
def update_grid_full (H W : Nat) (g : Grid) (st : Statistics) :
    Grid × Statistics :=
  let r := update_grid H W g
  let pop := gridSum r.1
  (r.1,
    { st with
      generation := st.generation + 1
      births := (r.2.1 : Int)
      deaths := (r.2.2 : Int)
      total_births := st.total_births + (r.2.1 : Int)
      total_deaths := st.total_deaths + (r.2.2 : Int)
      population := pop
      max_population := max st.max_population pop })

/-- Python list slicing `l[:k]`: a negative bound counts from the end. -/
def pySliceTo (l : List α) (k : Int) : List α :=
  if k < 0 then l.take ((l.length : Int) + k).toNat else l.take k.toNat

/-- The session state owned by the GameOfLife object: the live grid, the
undo/redo history with its cursor `history_index` (initially -1), and the
statistics.  Playback, theming and view state play no part in the claims. -/
structure Session where
  grid : Grid
  history : List Grid
  history_index : Int
  stats : Statistics
deriving DecidableEq

/-- The configured history capacity (`self.max_history = 50`). -/
def max_history : Nat := 50

/-- GameOfLife.save_to_history: truncate entries after the cursor, append
a copy of the live grid, then either evict the oldest entry (capacity
exceeded, cursor unchanged) or advance the cursor. -/
def save_to_history (s : Session) : Session :=
  let h :=
    if s.history_index < (s.history.length : Int) - 1 then
      pySliceTo s.history (s.history_index + 1)
    else s.history
  let h2 := h ++ [s.grid]
  if h2.length > max_history then { s with history := h2.drop 1 }
  else { s with history := h2, history_index := s.history_index + 1 }

/-- GameOfLife.undo: decrement the cursor and restore that snapshot,
unless the cursor is at the first entry.  Out-of-range history indexing
(impossible in reachable states) is modelled by the empty-grid default. -/
def undo (s : Session) : Session :=
  if 0 < s.history_index then
    { s with
      history_index := s.history_index - 1
      grid := s.history.getD (s.history_index - 1).toNat [] }
  else s

/-- GameOfLife.redo: increment the cursor and restore that snapshot,
unless the cursor is at the last entry. -/
def redo (s : Session) : Session :=
  if s.history_index < (s.history.length : Int) - 1 then
    { s with
      history_index := s.history_index + 1
      grid := s.history.getD (s.history_index + 1).toNat [] }
  else s

/-- A history operation of the spec: `record(g)` stores the given grid
(the source records the live grid, so recording `g` is modelled by
installing `g` as the live grid and calling save_to_history). -/
inductive HistOp where
  | record (g : Grid)
  | undo
  | redo

def applyOp (s : Session) : HistOp → Session
  | .record g => save_to_history { s with grid := g }
  | .undo => undo s
  | .redo => redo s

/-- A fresh session: live grid `g0`, empty history, cursor -1. -/
def initSession (g0 : Grid) : Session := ⟨g0, [], -1, {}⟩

/-- Run a sequence of history operations from a fresh session. -/
def run_ops (g0 : Grid) (ops : List HistOp) : Session :=
  ops.foldl applyOp (initSession g0)

example :
    (save_to_history (initSession [[1]])).history = [[[1]]] ∧
    (save_to_history (initSession [[1]])).history_index = 0 := by decide
example :
    (undo { save_to_history (initSession [[1]]) with grid := [[0]] }).grid
      = [[0]] := by decide

/-- Height of a pattern mask (`pattern.shape[0]`). -/
def patHeight (p : Grid) : Nat := p.length

/-- Width of a pattern mask (`pattern.shape[1]`; masks are rectangular). -/
def patWidth (p : Grid) : Nat := (p.headD []).length

/-- The body of the placement loop: one `grid[grid_row, grid_col] =
pattern[row, col]` write, bounds-checked as in the source (the lower
bounds hold automatically because the anchor is in bounds). -/
def placeWrite (H W : Nat) (p : Grid) (gyn gxn : Nat) (acc : Grid)
    (rc : Nat × Nat) : Grid :=
  if gyn + rc.1 < H ∧ gxn + rc.2 < W then
    setCell acc (gyn + rc.1) (gxn + rc.2) (cell p rc.1 rc.2)
  else acc

/-- GameOfLife.place_pattern, grid effect, taking an already-resolved
integer anchor `(gx, gy)` (the pixel-to-grid conversion is the excluded
view collaborator).  If the anchor is in bounds, the placement loop
writes every pattern cell whose target lies in bounds — alive and dead
values alike; the history snapshot the source takes first is handled at
the session level. -/
def place_pattern (H W : Nat) (g : Grid) (p : Grid) (gx gy : Int) : Grid :=
  if 0 ≤ gx ∧ gx < (W : Int) ∧ 0 ≤ gy ∧ gy < (H : Int) then
    (((List.range (patHeight p)).flatMap fun row =>
        (List.range (patWidth p)).map fun col => (row, col))).foldl
      (placeWrite H W p gy.toNat gx.toNat) g
  else g

/-- GameOfLife.toggle_cell, grid effect, with resolved grid coordinates:
sets the cell to 1 in draw mode and 0 in erase mode when in bounds. -/
def toggle_cell (H W : Nat) (g : Grid) (gx gy : Int) (draw_mode : Bool) :
    Grid :=
  if 0 ≤ gx ∧ gx < (W : Int) ∧ 0 ≤ gy ∧ gy < (H : Int) then
    setCell g gy.toNat gx.toNat (if draw_mode then 1 else 0)
  else g

/-- GameOfLife.clear_grid, grid effect: `np.zeros((H, W))`. -/
def clear_grid (H W : Nat) : Grid :=
  List.replicate H (List.replicate W 0)

/-- GameOfLife.fill_random: `np.random.choice([0, 1], size, p)`; the
random draw of each cell is modelled by a Boolean oracle (the density
only shapes the distribution, never the set of possible values). -/
def fill_random (H W : Nat) (sample : Nat → Nat → Bool) : Grid :=
  (List.range H).map fun r => (List.range W).map fun c =>
    if sample r c then 1 else 0

/-- Modelled from the spec: the naive per-cell Moore scan under the
toroidal policy, out-of-range coordinates taken modulo `H` and `W`
(the reference scan of claim C2; the in-repo scan `get_neighbors` is
clamped, so the toroidal reference follows the words of section 4.1). -/
def neighbor_count_torus (H W : Nat) (g : Grid) (row col : Nat) : Int :=
  (offs.map fun dr =>
    (offs.map fun dc =>
      if dr = 0 ∧ dc = 0 then 0
      else
        cell g (((row : Int) + dr) % (H : Int)).toNat
               (((col : Int) + dc) % (W : Int)).toNat).sum).sum

/-- The 3x3 neighbor kernel of the convolution step of the Gemini
variant: `np.array([[1,1,1],[1,0,1],[1,1,1]])`. -/
def kernel : Grid := [[1, 1, 1], [1, 0, 1], [1, 1, 1]]

/-- One output cell of `scipy.signal.convolve2d(grid, kernel,
mode='same', boundary='wrap')` with the 3x3 kernel above: the sum over
kernel positions `(u, v)` of `kernel[u][v] * grid[(i+1-u) mod H,
(j+1-v) mod W]`. -/
def convolve_at (H W : Nat) (g : Grid) (i j : Nat) : Int :=
  ((List.range 3).map fun u =>
    ((List.range 3).map fun v =>
      cell kernel u v *
        cell g (((i : Int) + 1 - u) % (H : Int)).toNat
               (((j : Int) + 1 - v) % (W : Int)).toNat).sum).sum

example :
    convolve_at 3 3 [[1,1,0],[0,1,0],[0,0,0]] 1 1 = 2 := by decide
example :
    neighbor_count_torus 3 3 [[1,1,0],[0,1,0],[0,0,0]] 0 0 = 2 := by decide
example :
    convolve_at 3 3 [[1,1,0],[0,1,0],[0,0,0]] 0 0 = 2 := by decide
example :
    place_pattern 2 2 [[1,1],[1,1]] [[0,1]] 0 0 = [[0,1],[1,1]] := by decide
example :
    place_pattern 1 1 [[1]] [[0]] 0 0 = [[0]] := by decide

/-- A parsed JSON value.  The codec works on parsed trees: `json.dump`
prints a tree of plain Python values and `json.load` parses it back
unchanged, so for trees the text layer is transparent to the round-trip
and error claims (unparsable text makes `json.load` raise before any
state is touched).  A value `json.dump` cannot print — in this program
a numpy int64 scalar in the stats dict — never becomes a tree at all:
`json.dump` raises TypeError mid-write, which `save_pattern` models by
producing no tree (see `save_pattern` below). -/
inductive JValue where
  | null
  | bool (b : Bool)
  | num (n : Int)
  | str (s : String)
  | arr (xs : List JValue)
  | obj (kvs : List (String × JValue))

/-- Dictionary lookup on a parsed JSON object. -/
def jLookup (kvs : List (String × JValue)) (k : String) : Option JValue :=
  (kvs.find? fun kv => kv.1 == k).map (·.2)

/-- One row for `np.array`: a JSON array whose entries are all numbers. -/
def decodeRow : List JValue → Option (List Int)
  | [] => some []
  | JValue.num n :: rest => (decodeRow rest).map (n :: ·)
  | _ :: _ => none

def decodeRows : List JValue → Option (List (List Int))
  | [] => some []
  | JValue.arr xs :: rest =>
    match decodeRow xs, decodeRows rest with
    | some r, some rs => some (r :: rs)
    | _, _ => none
  | _ :: _ => none

/-- np.array on the stored cell matrix: succeeds on a rectangular 2-D
array of numbers (the shape `save_pattern` writes); ragged input raises
ValueError and is modelled as failure. -/
def jToGrid : JValue → Option Grid
  | JValue.arr rows =>
    match decodeRows rows with
    | some rs =>
      if rs.all fun r => r.length = (rs.headD []).length then some rs
      else none
    | none => none
  | _ => none

/-- The `stats_data.get(key, 0)` reads of `load_pattern`: a missing key
defaults to 0.  A present non-numeric value, which Python would store
into the stats object unchecked, is modelled as 0; no claim touches
that corner. -/
def getStat (kvs : List (String × JValue)) (k : String) : Int :=
  match jLookup kvs k with
  | some (JValue.num n) => n
  | some _ => 0
  | none => 0

/-- A Python integer value at runtime: either a plain `int`, or a numpy
int64 scalar (the result type of `np.sum`, and of arithmetic and `max`
involving one).  The numeric value is the same either way — only
`json.dump` distinguishes them, accepting the former and raising
TypeError on the latter. -/
inductive PyInt where
  | int (n : Int)
  | npint (n : Int)
deriving DecidableEq

/-- The numeric value carried by a runtime integer. -/
def PyInt.val : PyInt → Int
  | .int n => n
  | .npint n => n

/-- Is this a plain `int` that `json.dump` can print? -/
def PyInt.isInt : PyInt → Bool
  | .int _ => true
  | .npint _ => false

/-- Adding a plain `int` on the right: `int + int` stays `int`, while
`np.int64 + int` stays `np.int64`. -/
def PyInt.addInt : PyInt → Int → PyInt
  | .int n, m => .int (n + m)
  | .npint n, m => .npint (n + m)

/-- Python's two-argument `max`: returns the second argument exactly
when it is strictly larger (so on ties the first argument's runtime
type wins). -/
def pyMax (a b : PyInt) : PyInt := if a.val < b.val then b else a

/-- The Statistics object as it exists at runtime, tracking for each
persisted field whether it is a plain `int` or a numpy int64 scalar
(all fields start as the plain `int` 0 from the dataclass defaults). -/
structure PyStatistics where
  generation : PyInt := PyInt.int 0
  population : PyInt := PyInt.int 0
  births : PyInt := PyInt.int 0
  deaths : PyInt := PyInt.int 0
  max_population : PyInt := PyInt.int 0
  total_births : PyInt := PyInt.int 0
  total_deaths : PyInt := PyInt.int 0
deriving DecidableEq

/-- The statistics writes of GameOfLife.update_grid (lines 381-387) at
the runtime-type level: generation and the totals are plain `int`
arithmetic on the loop counters, but `population = np.sum(self.grid)`
is an np.int64 scalar, and `max_population = max(old, population)`
becomes np.int64 whenever the fresh population wins the max. -/
def update_pystats (H W : Nat) (g : Grid) (st : PyStatistics) :
    PyStatistics :=
  let r := update_grid H W g
  let pop := PyInt.npint (gridSum r.1)
  { st with
    generation := st.generation.addInt 1
    births := PyInt.int (r.2.1 : Int)
    deaths := PyInt.int (r.2.2 : Int)
    total_births := st.total_births.addInt (r.2.1 : Int)
    total_deaths := st.total_deaths.addInt (r.2.2 : Int)
    population := pop
    max_population := pyMax st.max_population pop }

/-- GameOfLife.save_pattern, codec part.  The grid's `.tolist()` rows
are plain ints and always print; `json.dump` succeeds only when the
five persisted stats fields are plain ints too, yielding the JSON blob
with the cell matrix as nested arrays and the stats object.  When any
stats field is a numpy int64 scalar (as after every step), `json.dump`
raises TypeError — the source catches and prints the error, but the
file it had already opened for writing holds no valid blob; that
failure is the `none` branch. -/
def save_pattern (g : Grid) (st : PyStatistics) : Option JValue :=
  if st.generation.isInt && st.population.isInt && st.max_population.isInt
      && st.total_births.isInt && st.total_deaths.isInt then
    some (JValue.obj
      [("grid", JValue.arr (g.map fun row => JValue.arr (row.map JValue.num))),
       ("stats", JValue.obj
         [("generation", JValue.num st.generation.val),
          ("population", JValue.num st.population.val),
          ("max_population", JValue.num st.max_population.val),
          ("total_births", JValue.num st.total_births.val),
          ("total_deaths", JValue.num st.total_deaths.val)])])
  else none

/-- GameOfLife.load_pattern after a successful `json.load`, following
the source's statement order inside its try block: save_to_history runs
first, the grid is replaced next, and the stats fields are read last.
The Boolean result is true when a statement raises (the exception the
source catches and prints); every mutation already performed is kept,
exactly as in Python. -/
def load_pattern (v : JValue) (s : Session) : Session × Bool :=
  let s1 := save_to_history s
  match v with
  | JValue.obj kvs =>
    match jLookup kvs "grid" with
    | none => (s1, true)
    | some gv =>
      match jToGrid gv with
      | none => (s1, true)
      | some g =>
        let s2 := { s1 with grid := g }
        match jLookup kvs "stats" with
        | none => (s2, false)
        | some (JValue.obj sk) =>
          ({ s2 with stats :=
            { s2.stats with
              generation := getStat sk "generation"
              population := getStat sk "population"
              max_population := getStat sk "max_population"
              total_births := getStat sk "total_births"
              total_deaths := getStat sk "total_deaths" } }, false)
        | some _ => (s2, true)
  | _ => (s1, true)

example :
    (load_pattern
      ((save_pattern [[0, 1], [1, 0]] {generation := PyInt.int 7}).getD
        JValue.null)
      (initSession [[1, 1], [1, 1]])).1.grid = [[0, 1], [1, 0]] := by decide
example :
    (load_pattern
      ((save_pattern [[0, 1], [1, 0]] {generation := PyInt.int 7}).getD
        JValue.null)
      (initSession [[1, 1], [1, 1]])).1.stats.generation = 7 := by decide
example :
    save_pattern [[0]] {population := PyInt.npint 0} = none := rfl
example :
    (load_pattern
      (JValue.obj [("grid", JValue.arr [JValue.arr [JValue.num 1, JValue.num 0]]),
                   ("stats", JValue.num 5)])
      (initSession [[0, 0]])).2 = true := by decide
example :
    (load_pattern
      (JValue.obj [("grid", JValue.arr [JValue.arr [JValue.num 1, JValue.num 0]]),
                   ("stats", JValue.num 5)])
      (initSession [[0, 0]])).1.grid = [[1, 0]] := by decide

example : get_neighbors 3 3 [[1,1,0],[0,1,0],[0,0,0]] 1 1 = 2 := by decide
example : get_neighbors 3 3 [[1,1,1],[1,1,1],[1,1,1]] 0 0 = 3 := by decide
example :
    (update_grid 3 3 [[0,1,0],[0,1,0],[0,1,0]]).1 =
      [[0,0,0],[1,1,1],[0,0,0]] := by decide
example : (update_grid 3 3 [[0,1,0],[0,1,0],[0,1,0]]).2.1 = 2 := by decide
example : (update_grid 3 3 [[0,1,0],[0,1,0],[0,1,0]]).2.2 = 2 := by decide

/-! Helper lemmas about cells, shapes and writes. -/

lemma getD_mem_or (l : List α) (n : Nat) (d : α) :
    l.getD n d ∈ l ∨ l.getD n d = d := by
  by_cases h : n < l.length
  · left
    rw [List.getD_eq_getElem l d h]
    exact List.getElem_mem h
  · right
    exact List.getD_eq_default l d (le_of_not_lt h)

lemma cell_make (H W : Nat) (f : Nat → Nat → Int) (r c : Nat)
    (hr : r < H) (hc : c < W) :
    cell ((List.range H).map fun i => (List.range W).map fun j => f i j) r c
      = f r c := by
  unfold cell
  have h1 :
      r < ((List.range H).map fun i =>
            (List.range W).map fun j => f i j).length := by
    simpa using hr
  rw [List.getD_eq_getElem _ _ h1, List.getElem_map, List.getElem_range]
  have h2 : c < ((List.range W).map fun j => f r j).length := by simpa using hc
  rw [List.getD_eq_getElem _ _ h2, List.getElem_map, List.getElem_range]

lemma cell_zero_or_one (g : Grid) (hb : gridBinary g) (r c : Nat) :
    cell g r c = 0 ∨ cell g r c = 1 := by
  unfold cell
  rcases getD_mem_or g r [] with hrow | hrow
  · rcases getD_mem_or (g.getD r []) c 0 with hv | hv
    · exact hb _ hrow _ hv
    · exact Or.inl hv
  · rw [hrow]
    exact Or.inl rfl

lemma gridShape_setCell {H W : Nat} {g : Grid} (hs : gridShape H W g)
    (r c : Nat) (v : Int) : gridShape H W (setCell g r c v) := by
  obtain ⟨hl, hrows⟩ := hs
  by_cases hrlt : r < g.length
  · refine ⟨by simp [setCell, hl], ?_⟩
    intro row hrow
    rcases List.mem_or_eq_of_mem_set hrow with h | h
    · exact hrows _ h
    · subst h
      rw [List.length_set, List.getD_eq_getElem g [] hrlt]
      exact hrows _ (List.getElem_mem hrlt)
  · unfold setCell
    rw [List.set_eq_of_length_le (le_of_not_lt hrlt)]
    exact ⟨hl, hrows⟩

lemma getD_set_same (l : List α) (i : Nat) (a d : α) (h : i < l.length) :
    (l.set i a).getD i d = a := by
  rw [List.getD_eq_getElem?_getD, List.getElem?_set_self h]
  rfl

lemma getD_set_other (l : List α) (i j : Nat) (a d : α) (h : i ≠ j) :
    (l.set i a).getD j d = l.getD j d := by
  rw [List.getD_eq_getElem?_getD, List.getElem?_set_ne h,
    ← List.getD_eq_getElem?_getD]

lemma cell_setCell_same {g : Grid} {r c : Nat} (v : Int)
    (hr : r < g.length) (hc : c < (g.getD r []).length) :
    cell (setCell g r c v) r c = v := by
  unfold cell setCell
  rw [getD_set_same g r _ [] hr, getD_set_same _ c _ 0 hc]

lemma cell_setCell_ne {g : Grid} {r c : Nat} (v : Int) (r' c' : Nat)
    (h : ¬(r' = r ∧ c' = c)) :
    cell (setCell g r c v) r' c' = cell g r' c' := by
  unfold cell setCell
  by_cases hrr : r' = r
  · subst hrr
    have hcc : c ≠ c' := fun hc => h ⟨rfl, hc.symm⟩
    by_cases hrlt : r' < g.length
    · rw [getD_set_same g r' _ [] hrlt, getD_set_other _ c c' _ 0 hcc]
    · rw [List.set_eq_of_length_le (le_of_not_lt hrlt)]
  · rw [getD_set_other g r r' _ [] fun he => hrr he.symm]

lemma life_rule_if (old n : Int) :
    life_rule old n =
      if (old = 1 ∧ (n = 2 ∨ n = 3)) ∨ (old ≠ 1 ∧ n = 3) then 1 else 0 := by
  unfold life_rule
  split_ifs <;> tauto

lemma foldl_count_inner (P : Nat → Prop) [DecidablePred P] :
    ∀ (l : List Nat) (n : Nat),
      l.foldl (fun acc c => if P c then acc + 1 else acc) n
        = n + l.countP fun c => decide (P c) := by
  intro l
  induction l with
  | nil => intro n; simp
  | cons x xs ih =>
    intro n
    rw [List.foldl_cons, ih, List.countP_cons]
    by_cases h : P x <;> simp [h] <;> omega

lemma foldl_count_double (P : Nat → Nat → Prop) [∀ r c, Decidable (P r c)]
    (W : Nat) :
    ∀ (l : List Nat) (n : Nat),
      l.foldl (fun acc r =>
        (List.range W).foldl
          (fun acc2 c => if P r c then acc2 + 1 else acc2) acc) n
        = n + (l.map fun r =>
            (List.range W).countP fun c => decide (P r c)).sum := by
  intro l
  induction l with
  | nil => intro n; simp
  | cons x xs ih =>
    intro n
    rw [List.foldl_cons, ih, foldl_count_inner (P x)]
    simp
    omega

/-- C1: for every grid, the step computes each output cell from the
pre-step grid only — the new grid is freshly built and each new cell is
1 exactly when the old cell was alive with 2 or 3 neighbors (of the old
grid) or dead with exactly 3; `deaths` counts the alive cells that die
and `births` the dead cells that come alive. -/
theorem step_rule_correct (H W : Nat) (g : Grid) :
    (∀ r, r < H → ∀ c, c < W →
      cell (update_grid H W g).1 r c =
        if (cell g r c = 1 ∧
              (get_neighbors H W g r c = 2 ∨ get_neighbors H W g r c = 3))
            ∨ (cell g r c ≠ 1 ∧ get_neighbors H W g r c = 3)
        then 1 else 0)
    ∧ (update_grid H W g).2.1 =
        ((List.range H).map fun r => (List.range W).countP fun c =>
          decide (cell g r c ≠ 1 ∧ get_neighbors H W g r c = 3)).sum
    ∧ (update_grid H W g).2.2 =
        ((List.range H).map fun r => (List.range W).countP fun c =>
          decide (cell g r c = 1 ∧
            ¬(get_neighbors H W g r c = 2 ∨ get_neighbors H W g r c = 3))).sum := by
  refine ⟨?_, ?_, ?_⟩
  · intro r hr c hc
    show cell ((List.range H).map fun i => (List.range W).map fun j =>
      life_rule (cell g i j) (get_neighbors H W g i j)) r c = _
    rw [cell_make H W _ r c hr hc, life_rule_if]
  · show (List.range H).foldl _ 0 = _
    rw [foldl_count_double
      (fun r c => cell g r c ≠ 1 ∧ get_neighbors H W g r c = 3) W
      (List.range H) 0]
    simp
  · show (List.range H).foldl _ 0 = _
    rw [foldl_count_double
      (fun r c => cell g r c = 1 ∧
        ¬(get_neighbors H W g r c = 2 ∨ get_neighbors H W g r c = 3)) W
      (List.range H) 0]
    simp

/-- Witness for C1 at the blinker. -/
theorem step_rule_correct_witness :
    cell (update_grid 3 3 [[0,1,0],[0,1,0],[0,1,0]]).1 1 0 =
      if (cell [[0,1,0],[0,1,0],[0,1,0]] 1 0 = 1 ∧
            (get_neighbors 3 3 [[0,1,0],[0,1,0],[0,1,0]] 1 0 = 2 ∨
             get_neighbors 3 3 [[0,1,0],[0,1,0],[0,1,0]] 1 0 = 3))
          ∨ (cell [[0,1,0],[0,1,0],[0,1,0]] 1 0 ≠ 1 ∧
             get_neighbors 3 3 [[0,1,0],[0,1,0],[0,1,0]] 1 0 = 3)
      then 1 else 0 :=
  (step_rule_correct 3 3 [[0,1,0],[0,1,0],[0,1,0]]).1 1 (by decide) 0
    (by decide)

lemma life_rule_zero_or_one (old n : Int) :
    life_rule old n = 0 ∨ life_rule old n = 1 := by
  unfold life_rule
  split_ifs <;> simp

lemma update_grid_binary (H W : Nat) (g : Grid) :
    gridBinary (update_grid H W g).1 := by
  intro row hrow v hv
  show v = 0 ∨ v = 1
  obtain ⟨r, _, hrq⟩ := List.mem_map.mp hrow
  subst hrq
  obtain ⟨c, _, hvq⟩ := List.mem_map.mp hv
  subst hvq
  exact life_rule_zero_or_one _ _

lemma sum_eq_countP_of_binary :
    ∀ (l : List Int), (∀ v ∈ l, v = 0 ∨ v = 1) →
      l.sum = (l.countP fun v => v == 1 : Nat) := by
  intro l
  induction l with
  | nil => intro _; simp
  | cons x xs ih =>
    intro h
    have hx := h x (List.mem_cons_self x xs)
    have hxs := ih fun v hv => h v (List.mem_cons_of_mem x hv)
    rw [List.sum_cons, List.countP_cons, hxs]
    rcases hx with h0 | h1
    · subst h0; simp
    · subst h1; simp; omega

lemma gridSum_eq_countAlive (g : Grid) (hb : gridBinary g) :
    gridSum g = countAlive g := by
  unfold gridSum countAlive
  induction g with
  | nil => simp
  | cons row rows ih =>
    have hrow := hb row (List.mem_cons_self row rows)
    have hrows : gridBinary rows := fun r hr v hv =>
      hb r (List.mem_cons_of_mem row hr) v hv
    simp only [List.map_cons, List.sum_cons]
    rw [sum_eq_countP_of_binary row hrow, ih hrows]
    push_cast
    ring

/-- C3: after every step the statistics are updated exactly as claimed:
generation is incremented, the per-step births and deaths are installed,
the cumulative totals grow by them, the population equals the number of
alive cells of the new grid, and max_population is the maximum of its
previous value and the new population. -/
theorem stats_update_correct (H W : Nat) (g : Grid) (st : Statistics) :
    (update_grid_full H W g st).2.generation = st.generation + 1
    ∧ (update_grid_full H W g st).2.births = ((update_grid H W g).2.1 : Int)
    ∧ (update_grid_full H W g st).2.deaths = ((update_grid H W g).2.2 : Int)
    ∧ (update_grid_full H W g st).2.total_births
        = st.total_births + ((update_grid H W g).2.1 : Int)
    ∧ (update_grid_full H W g st).2.total_deaths
        = st.total_deaths + ((update_grid H W g).2.2 : Int)
    ∧ (update_grid_full H W g st).2.population
        = countAlive (update_grid_full H W g st).1
    ∧ (update_grid_full H W g st).2.max_population
        = max st.max_population (update_grid_full H W g st).2.population := by
  refine ⟨rfl, rfl, rfl, rfl, rfl, ?_, rfl⟩
  show gridSum (update_grid H W g).1 = countAlive (update_grid H W g).1
  exact gridSum_eq_countAlive _ (update_grid_binary H W g)

/-- One clamped neighbor contribution of `get_neighbors`, at offset
`(dr, dc)` (a proof-side abbreviation of the loop body). -/
def gterm (H W : Nat) (g : Grid) (row col : Nat) (dr dc : Int) : Int :=
  if 0 ≤ (row : Int) + dr ∧ (row : Int) + dr < (H : Int) ∧
     0 ≤ (col : Int) + dc ∧ (col : Int) + dc < (W : Int) then
    cell g ((row : Int) + dr).toNat ((col : Int) + dc).toNat
  else 0

lemma get_neighbors_expand (H W : Nat) (g : Grid) (row col : Nat) :
    get_neighbors H W g row col =
      gterm H W g row col (-1) (-1) + gterm H W g row col (-1) 0 +
      gterm H W g row col (-1) 1 + gterm H W g row col 0 (-1) +
      gterm H W g row col 0 1 + gterm H W g row col 1 (-1) +
      gterm H W g row col 1 0 + gterm H W g row col 1 1 := by
  simp [get_neighbors, offs, gterm]
  ring

lemma gterm_bounds (H W : Nat) (g : Grid) (hb : gridBinary g)
    (row col : Nat) (dr dc : Int) :
    0 ≤ gterm H W g row col dr dc ∧ gterm H W g row col dr dc ≤ 1 := by
  unfold gterm
  split
  · rcases cell_zero_or_one g hb ((row : Int) + dr).toNat
      ((col : Int) + dc).toNat with h | h <;> omega
  · omega

/-- C2: `get_neighbors` examines exactly the 8 Moore offsets and, on a
binary grid, returns an integer in `[0, 8]`; and the convolution-based
count (3x3 kernel with center 0, wrap boundary) agrees at every cell of
every grid with the naive per-cell Moore scan under the toroidal policy
(out-of-range coordinates taken modulo `H` and `W`). -/
theorem neighbor_count_correct :
    (∀ (H W : Nat) (g : Grid), gridBinary g → ∀ row col : Nat,
      0 ≤ get_neighbors H W g row col ∧ get_neighbors H W g row col ≤ 8)
    ∧ (∀ (H W : Nat) (g : Grid) (i j : Nat),
      convolve_at H W g i j = neighbor_count_torus H W g i j) := by
  constructor
  · intro H W g hb row col
    rw [get_neighbors_expand]
    have h1 := gterm_bounds H W g hb row col (-1) (-1)
    have h2 := gterm_bounds H W g hb row col (-1) 0
    have h3 := gterm_bounds H W g hb row col (-1) 1
    have h4 := gterm_bounds H W g hb row col 0 (-1)
    have h5 := gterm_bounds H W g hb row col 0 1
    have h6 := gterm_bounds H W g hb row col 1 (-1)
    have h7 := gterm_bounds H W g hb row col 1 0
    have h8 := gterm_bounds H W g hb row col 1 1
    constructor <;> linarith
  · intro H W g i j
    unfold convolve_at neighbor_count_torus offs
    simp [List.range_succ, cell, List.getD, kernel]
    have h1 : ∀ x : Int, x + 1 - 2 = x + -1 := fun x => by ring
    have h2 : ∀ x : Int, x + 1 - 1 = x := fun x => by ring
    have h3 : ∀ x : Int, x + 1 - 0 = x + 1 := fun x => by ring
    simp only [h1, h2, h3]
    ring

/-- Witness for C2 on a concrete binary grid. -/
theorem neighbor_count_correct_witness :
    0 ≤ get_neighbors 3 3 [[1,1,0],[0,1,0],[0,0,0]] 1 1 ∧
    get_neighbors 3 3 [[1,1,0],[0,1,0],[0,0,0]] 1 1 ≤ 8 :=
  neighbor_count_correct.1 3 3 [[1,1,0],[0,1,0],[0,0,0]] (by decide) 1 1

/-- Counterexample for C4: from an empty history, one record of `G1 =
[[1]]` followed by mutation to `G2 = [[0]]` and `undo()` does NOT restore
G1 — the cursor sits at the first entry, so undo is a no-op and the grid
stays G2. -/
theorem undo_after_single_record_fails :
    (undo { save_to_history (initSession [[1]]) with grid := [[0]] }).grid
      ≠ [[1]] := by decide

/-- C4 amended: after one record of G1 and mutation to G2, `undo()` is a
no-op leaving G2 (the cursor is at the first entry); G1 is restored once
a second record (of the mutated state) precedes the undo. -/
theorem undo_restores_after_second_record (G1 G2 : Grid) :
    (undo { save_to_history (initSession G1) with grid := G2 }).grid = G2
    ∧ (undo (save_to_history
        { save_to_history (initSession G1) with grid := G2 })).grid = G1 := by
  have h1 : save_to_history (initSession G1)
      = ⟨G1, [G1], 0, {}⟩ := by
    unfold save_to_history initSession pySliceTo max_history
    norm_num
  constructor
  · rw [h1]
    unfold undo
    norm_num
  · rw [h1]
    have h2 : save_to_history ⟨G2, [G1], 0, {}⟩
        = ⟨G2, [G1, G2], 1, {}⟩ := by
      unfold save_to_history pySliceTo max_history
      norm_num
    rw [h2]
    unfold undo
    norm_num

/-- C5: for every history state (cursor at least -1, as in every
reachable state), record first discards the entries after the cursor,
then appends the grid; when the capacity cap is exceeded (the cursor then
sits at the newest slot) the oldest entry is evicted and the cursor does
not advance, otherwise the appended entry stands and the cursor advances
by one. -/
theorem record_characterization (s : Session) (h : -1 ≤ s.history_index) :
    save_to_history s =
      if (s.history.take (s.history_index + 1).toNat).length + 1 > max_history
      then { s with history :=
        ((s.history.take (s.history_index + 1).toNat) ++ [s.grid]).drop 1 }
      else { s with
        history := (s.history.take (s.history_index + 1).toNat) ++ [s.grid]
        history_index := s.history_index + 1 } := by
  have hk : pySliceTo s.history (s.history_index + 1)
      = s.history.take (s.history_index + 1).toNat := by
    unfold pySliceTo
    exact if_neg (by omega)
  by_cases hg : s.history_index < (s.history.length : Int) - 1
  · simp only [save_to_history, if_pos hg, hk, List.length_append,
      List.length_singleton]
  · simp only [save_to_history, if_neg hg]
    have htake : s.history.take (s.history_index + 1).toNat = s.history :=
      List.take_of_length_le (by omega)
    rw [htake]
    simp only [List.length_append, List.length_singleton]

/-- Witness for C5 on a concrete mid-history session. -/
theorem record_characterization_witness :
    save_to_history ⟨[[1]], [[[0]], [[1]], [[0, 1]]], 0, {}⟩ =
      (let s : Session := ⟨[[1]], [[[0]], [[1]], [[0, 1]]], 0, {}⟩
       if (s.history.take (s.history_index + 1).toNat).length + 1 > max_history
       then { s with history :=
         ((s.history.take (s.history_index + 1).toNat) ++ [s.grid]).drop 1 }
       else { s with
         history := (s.history.take (s.history_index + 1).toNat) ++ [s.grid]
         history_index := s.history_index + 1 }) :=
  record_characterization ⟨[[1]], [[[0]], [[1]], [[0, 1]]], 0, {}⟩ (by decide)

/-- The history invariant: bounded length, and a valid cursor (cursor -1
exactly in the empty-history state). -/
def histInv (s : Session) : Prop :=
  s.history.length ≤ max_history
  ∧ (s.history = [] → s.history_index = -1)
  ∧ (s.history ≠ [] →
      0 ≤ s.history_index ∧ s.history_index < (s.history.length : Int))

lemma histInv_save (s : Session) (hinv : histInv s) :
    histInv (save_to_history s) := by
  obtain ⟨hcap, hemp, hne⟩ := hinv
  have hM : 0 < max_history := by unfold max_history; omega
  have hidx : -1 ≤ s.history_index := by
    by_cases he : s.history = []
    · have := hemp he; omega
    · have := hne he; omega
  rw [record_characterization s hidx]
  by_cases he : s.history = []
  · have hi0 := hemp he
    rw [if_neg (by simp [he, max_history])]
    refine ⟨?_, ?_, ?_⟩
    · show (s.history.take (s.history_index + 1).toNat ++ [s.grid]).length
        ≤ max_history
      simp [he]
      omega
    · show s.history.take (s.history_index + 1).toNat ++ [s.grid] = [] →
        s.history_index + 1 = -1
      intro hnil
      simp at hnil
    · intro _
      show 0 ≤ s.history_index + 1 ∧ s.history_index + 1 <
        ((s.history.take (s.history_index + 1).toNat ++ [s.grid]).length : Int)
      simp [he, hi0]
  · obtain ⟨h0, hlt⟩ := hne he
    have hpos : 0 < s.history.length := List.length_pos.mpr he
    have hkeep : (s.history.take (s.history_index + 1).toNat).length
        = (s.history_index + 1).toNat := by
      rw [List.length_take]
      omega
    by_cases hcond :
        (s.history.take (s.history_index + 1).toNat).length + 1 > max_history
    · rw [if_pos hcond]
      refine ⟨?_, ?_, ?_⟩
      · show ((s.history.take (s.history_index + 1).toNat ++ [s.grid]).drop
          1).length ≤ max_history
        simp only [List.length_drop, List.length_append,
          List.length_singleton]
        omega
      · show (s.history.take (s.history_index + 1).toNat ++ [s.grid]).drop 1
          = [] → s.history_index = -1
        intro hnil
        exfalso
        have hlen := congrArg List.length hnil
        simp only [List.length_drop, List.length_append,
          List.length_singleton, List.length_nil] at hlen
        omega
      · intro _
        show 0 ≤ s.history_index ∧ s.history_index <
          (((s.history.take (s.history_index + 1).toNat ++ [s.grid]).drop
            1).length : Int)
        simp only [List.length_drop, List.length_append,
          List.length_singleton]
        omega
    · rw [if_neg hcond]
      refine ⟨?_, ?_, ?_⟩
      · show (s.history.take (s.history_index + 1).toNat ++ [s.grid]).length
          ≤ max_history
        simp only [List.length_append, List.length_singleton]
        omega
      · show s.history.take (s.history_index + 1).toNat ++ [s.grid] = [] →
          s.history_index + 1 = -1
        intro hnil
        simp at hnil
      · intro _
        show 0 ≤ s.history_index + 1 ∧ s.history_index + 1 <
          ((s.history.take (s.history_index + 1).toNat ++ [s.grid]).length : Int)
        simp only [List.length_append, List.length_singleton]
        omega

lemma histInv_undo (s : Session) (hinv : histInv s) : histInv (undo s) := by
  obtain ⟨hcap, hemp, hne⟩ := hinv
  unfold undo
  by_cases hc : 0 < s.history_index
  · rw [if_pos hc]
    by_cases he : s.history = []
    · have := hemp he; omega
    · obtain ⟨h0, hlt⟩ := hne he
      refine ⟨hcap, fun hnil => absurd hnil he, fun _ => ?_⟩
      show 0 ≤ s.history_index - 1 ∧
        s.history_index - 1 < (s.history.length : Int)
      omega
  · rw [if_neg hc]
    exact ⟨hcap, hemp, hne⟩

lemma histInv_redo (s : Session) (hinv : histInv s) : histInv (redo s) := by
  obtain ⟨hcap, hemp, hne⟩ := hinv
  unfold redo
  by_cases hc : s.history_index < (s.history.length : Int) - 1
  · rw [if_pos hc]
    by_cases he : s.history = []
    · have h1 := hemp he
      have hlen0 : s.history.length = 0 := by rw [he]; rfl
      omega
    · obtain ⟨h0, hlt⟩ := hne he
      refine ⟨hcap, fun hnil => absurd hnil he, fun _ => ?_⟩
      show 0 ≤ s.history_index + 1 ∧
        s.history_index + 1 < (s.history.length : Int)
      omega
  · rw [if_neg hc]
    exact ⟨hcap, hemp, hne⟩

lemma histInv_run (g0 : Grid) (ops : List HistOp) :
    histInv (run_ops g0 ops) := by
  unfold run_ops
  have h0 : histInv (initSession g0) := by
    refine ⟨by unfold initSession max_history; simp, fun _ => rfl, ?_⟩
    intro hne
    exact absurd rfl hne
  generalize initSession g0 = s at h0 ⊢
  induction ops generalizing s with
  | nil => exact h0
  | cons op rest ih =>
    rw [List.foldl_cons]
    apply ih
    cases op with
    | record g => exact histInv_save _ h0
    | undo => exact histInv_undo _ h0
    | redo => exact histInv_redo _ h0

/-- C6: for every sequence of record, undo and redo operations from the
empty history, the history never exceeds the capacity of 50 entries and,
whenever it is non-empty, the cursor is a valid index into it. -/
theorem history_invariant (g0 : Grid) (ops : List HistOp) :
    (run_ops g0 ops).history.length ≤ max_history
    ∧ ((run_ops g0 ops).history ≠ [] →
        0 ≤ (run_ops g0 ops).history_index ∧
        (run_ops g0 ops).history_index <
          ((run_ops g0 ops).history.length : Int)) :=
  ⟨(histInv_run g0 ops).1, (histInv_run g0 ops).2.2⟩

/-- Witness for C6 after one record. -/
theorem history_invariant_witness :
    0 ≤ (run_ops [[1]] [HistOp.record [[0]]]).history_index ∧
    (run_ops [[1]] [HistOp.record [[0]]]).history_index <
      ((run_ops [[1]] [HistOp.record [[0]]]).history.length : Int) :=
  (history_invariant [[1]] [HistOp.record [[0]]]).2 (by decide)

lemma row_length {H W : Nat} {g : Grid} (hs : gridShape H W g) {r : Nat}
    (hr : r < H) : (g.getD r []).length = W := by
  have hrl : r < g.length := by rw [hs.1]; exact hr
  rw [List.getD_eq_getElem g [] hrl]
  exact hs.2 _ (List.getElem_mem hrl)

lemma placeWrite_shape {H W : Nat} {acc : Grid} (hs : gridShape H W acc)
    (p : Grid) (gyn gxn : Nat) (rc : Nat × Nat) :
    gridShape H W (placeWrite H W p gyn gxn acc rc) := by
  unfold placeWrite
  split
  · exact gridShape_setCell hs _ _ _
  · exact hs

lemma fold_place_cell_none (H W : Nat) (p : Grid) (gyn gxn : Nat)
    (r c : Nat) :
    ∀ (pairs : List (Nat × Nat)) (acc : Grid),
      (∀ rc ∈ pairs, ¬(gyn + rc.1 = r ∧ gxn + rc.2 = c)) →
      cell (pairs.foldl (placeWrite H W p gyn gxn) acc) r c = cell acc r c := by
  intro pairs
  induction pairs with
  | nil => intro acc _; rfl
  | cons pr rest ih =>
    intro acc hnone
    rw [List.foldl_cons,
      ih _ fun rc hm => hnone rc (List.mem_cons_of_mem pr hm)]
    unfold placeWrite
    split
    · exact cell_setCell_ne _ r c fun hh =>
        hnone pr (List.mem_cons_self pr rest) ⟨hh.1.symm, hh.2.symm⟩
    · rfl

lemma fold_place_cell_hit (H W : Nat) (p : Grid) (gyn gxn : Nat)
    (r c : Nat) (rc0 : Nat × Nat) :
    ∀ (pairs : List (Nat × Nat)) (acc : Grid),
      gridShape H W acc → r < H → c < W →
      rc0 ∈ pairs → gyn + rc0.1 = r → gxn + rc0.2 = c →
      (∀ rc ∈ pairs, gyn + rc.1 = r → gxn + rc.2 = c → rc = rc0) →
      cell (pairs.foldl (placeWrite H W p gyn gxn) acc) r c
        = cell p rc0.1 rc0.2 := by
  intro pairs
  induction pairs with
  | nil =>
    intro acc _ _ _ hmem _ _ _
    exact absurd hmem (List.not_mem_nil rc0)
  | cons pr rest ih =>
    intro acc hshape hr hc hmem h1 h2 huniq
    rw [List.foldl_cons]
    by_cases hpr : gyn + pr.1 = r ∧ gxn + pr.2 = c
    · have hpr0 : pr = rc0 :=
        huniq pr (List.mem_cons_self pr rest) hpr.1 hpr.2
    
      by_cases hrest : rc0 ∈ rest
      · exact ih _ (placeWrite_shape hshape p gyn gxn pr) hr hc hrest h1 h2
          fun rc hm => huniq rc (List.mem_cons_of_mem pr hm)
      · have hnm : ∀ rc ∈ rest, ¬(gyn + rc.1 = r ∧ gxn + rc.2 = c) := by
          intro rc hm hh
          apply hrest
          rw [← huniq rc (List.mem_cons_of_mem pr hm) hh.1 hh.2]
          exact hm
        rw [fold_place_cell_none H W p gyn gxn r c rest _ hnm]
        unfold placeWrite
        rw [if_pos (by omega)]
        rw [hpr.1, hpr.2, ← hpr0]
        exact cell_setCell_same _ (by rw [hshape.1]; exact hr)
          (by rw [row_length hshape hr]; exact hc)
    · have hrest : rc0 ∈ rest := by
        rcases List.mem_cons.mp hmem with he | hm
        · exact absurd ⟨by rw [← he]; exact h1, by rw [← he]; exact h2⟩ hpr
        · exact hm
      exact ih _ (placeWrite_shape hshape p gyn gxn pr) hr hc hrest h1 h2
        fun rc hm => huniq rc (List.mem_cons_of_mem pr hm)

/-- Counterexample for C7: placing the pattern `[[0]]` (a single dead
mask cell) at anchor (0,0) on the alive 1x1 grid `[[1]]` clears the
cell — the dead pattern cell IS written, so the grid cell under it does
not retain its prior value. -/
theorem place_pattern_overwrites_dead_cells :
    cell (place_pattern 1 1 [[1]] [[0]] 0 0) 0 0 ≠ cell [[1]] 0 0 := by
  decide

/-- C7 amended: for an in-bounds anchor on a well-shaped grid, place
writes every pattern cell inside the grid — alive and dead values
alike — and every cell outside the pattern's footprint retains its
prior value. -/
theorem place_pattern_characterization (H W : Nat) (g p : Grid)
    (gx gy : Int) (hs : gridShape H W g)
    (hax : 0 ≤ gx ∧ gx < (W : Int)) (hay : 0 ≤ gy ∧ gy < (H : Int))
    (r c : Nat) (hr : r < H) (hc : c < W) :
    cell (place_pattern H W g p gx gy) r c =
      if gy.toNat ≤ r ∧ r < gy.toNat + patHeight p ∧
         gx.toNat ≤ c ∧ c < gx.toNat + patWidth p
      then cell p (r - gy.toNat) (c - gx.toNat)
      else cell g r c := by
  unfold place_pattern
  rw [if_pos ⟨hax.1, hax.2, hay.1, hay.2⟩]
  by_cases hfoot : gy.toNat ≤ r ∧ r < gy.toNat + patHeight p ∧
      gx.toNat ≤ c ∧ c < gx.toNat + patWidth p
  · rw [if_pos hfoot]
    refine fold_place_cell_hit H W p gy.toNat gx.toNat r c
      (r - gy.toNat, c - gx.toNat) _ g hs hr hc ?_
      (show gy.toNat + (r - gy.toNat) = r by omega)
      (show gx.toNat + (c - gx.toNat) = c by omega) ?_
    · refine List.mem_flatMap.mpr
        ⟨r - gy.toNat, List.mem_range.mpr (by omega), ?_⟩
      exact List.mem_map.mpr
        ⟨c - gx.toNat, List.mem_range.mpr (by omega), rfl⟩
    · intro rc hm hh1 hh2
      obtain ⟨row, hrow, hmm⟩ := List.mem_flatMap.mp hm
      obtain ⟨col, hcol, rfl⟩ := List.mem_map.mp hmm
      have hrow2 := List.mem_range.mp hrow
      have hcol2 := List.mem_range.mp hcol
      have he1 : gy.toNat + row = r := hh1
      have he2 : gx.toNat + col = c := hh2
      simp only [Prod.mk.injEq]
      constructor <;> omega
  · rw [if_neg hfoot]
    apply fold_place_cell_none
    intro rc hm hh
    obtain ⟨row, hrow, hmm⟩ := List.mem_flatMap.mp hm
    obtain ⟨col, hcol, rfl⟩ := List.mem_map.mp hmm
    have hrow2 := List.mem_range.mp hrow
    have hcol2 := List.mem_range.mp hcol
    have he1 : gy.toNat + row = r := hh.1
    have he2 : gx.toNat + col = c := hh.2
    exact hfoot ⟨by omega, by omega, by omega, by omega⟩

/-- Witness for C7's amended characterization at a concrete placement. -/
theorem place_pattern_characterization_witness :
    cell (place_pattern 2 2 [[1, 1], [1, 1]] [[0]] 0 0) 0 0 =
      if (0 : Int).toNat ≤ 0 ∧ 0 < (0 : Int).toNat + patHeight [[0]] ∧
         (0 : Int).toNat ≤ 0 ∧ 0 < (0 : Int).toNat + patWidth [[0]]
      then cell [[0]] (0 - (0 : Int).toNat) (0 - (0 : Int).toNat)
      else cell [[1, 1], [1, 1]] 0 0 :=
  place_pattern_characterization 2 2 [[1, 1], [1, 1]] [[0]] 0 0
    (by decide) ⟨by decide, by decide⟩ ⟨by decide, by decide⟩ 0 0
    (by decide) (by decide)

lemma gridBinary_setCell {g : Grid} (hb : gridBinary g) {v : Int}
    (hv : v = 0 ∨ v = 1) (r c : Nat) : gridBinary (setCell g r c v) := by
  intro row hrow w hw
  rcases List.mem_or_eq_of_mem_set hrow with h | h
  · exact hb _ h _ hw
  · subst h
    rcases List.mem_or_eq_of_mem_set hw with h2 | h2
    · rcases getD_mem_or g r [] with h3 | h3
      · exact hb _ h3 _ h2
      · rw [h3] at h2
        exact absurd h2 (List.not_mem_nil w)
    · subst h2
      exact hv

lemma mapgrid_shape (H W : Nat) (f : Nat → Nat → Int) :
    gridShape H W ((List.range H).map fun i =>
      (List.range W).map fun j => f i j) := by
  refine ⟨by simp, ?_⟩
  intro row hrow
  obtain ⟨i, _, rfl⟩ := List.mem_map.mp hrow
  simp

lemma mapgrid_binary (H W : Nat) (f : Nat → Nat → Int)
    (hf : ∀ i j, f i j = 0 ∨ f i j = 1) :
    gridBinary ((List.range H).map fun i =>
      (List.range W).map fun j => f i j) := by
  intro row hrow v hv
  obtain ⟨i, _, rfl⟩ := List.mem_map.mp hrow
  obtain ⟨j, _, rfl⟩ := List.mem_map.mp hv
  exact hf i j

lemma fold_place_wf (H W : Nat) (p : Grid) (gyn gxn : Nat)
    (hp : gridBinary p) :
    ∀ (pairs : List (Nat × Nat)) (acc : Grid),
      gridShape H W acc → gridBinary acc →
      gridWF H W (pairs.foldl (placeWrite H W p gyn gxn) acc) := by
  intro pairs
  induction pairs with
  | nil => intro acc hs hb; exact ⟨hs, hb⟩
  | cons pr rest ih =>
    intro acc hs hb
    rw [List.foldl_cons]
    refine ih _ (placeWrite_shape hs p gyn gxn pr) ?_
    unfold placeWrite
    split
    · exact gridBinary_setCell hb (cell_zero_or_one p hp _ _) _ _
    · exact hb

/-- C10: each core grid operation — step, single-cell draw/erase,
pattern placement (with a binary mask), clear and random fill — yields a
grid of the same `H x W` shape whose cells are all still 0 or 1. -/
theorem ops_preserve_wellformed (H W : Nat) :
    (∀ g : Grid, gridWF H W g → gridWF H W (update_grid H W g).1)
    ∧ (∀ (g : Grid) (gx gy : Int) (d : Bool), gridWF H W g →
        gridWF H W (toggle_cell H W g gx gy d))
    ∧ (∀ (g p : Grid) (gx gy : Int), gridWF H W g → gridBinary p →
        gridWF H W (place_pattern H W g p gx gy))
    ∧ gridWF H W (clear_grid H W)
    ∧ (∀ sample : Nat → Nat → Bool, gridWF H W (fill_random H W sample)) := by
  refine ⟨?_, ?_, ?_, ?_, ?_⟩
  · intro g hg
    constructor
    · exact mapgrid_shape H W _
    · exact update_grid_binary H W g
  · intro g gx gy d hg
    unfold toggle_cell
    split
    · exact ⟨gridShape_setCell hg.1 _ _ _,
        gridBinary_setCell hg.2 (by cases d <;> simp) _ _⟩
    · exact hg
  · intro g p gx gy hg hp
    unfold place_pattern
    split
    · exact fold_place_wf H W p gy.toNat gx.toNat hp _ g hg.1 hg.2
    · exact hg
  · constructor
    · refine ⟨by simp [clear_grid], ?_⟩
      intro row hrow
      rw [List.eq_of_mem_replicate hrow]
      simp
    · intro row hrow v hv
      rw [List.eq_of_mem_replicate hrow] at hv
      rw [List.eq_of_mem_replicate hv]
      exact Or.inl rfl
  · intro sample
    constructor
    · exact mapgrid_shape H W _
    · refine mapgrid_binary H W _ ?_
      intro i j
      split <;> simp

/-- Witness for C10 on 1x1 instances of each operation. -/
theorem ops_preserve_wellformed_witness :
    gridWF 1 1 (update_grid 1 1 [[1]]).1
    ∧ gridWF 1 1 (toggle_cell 1 1 [[1]] 0 0 true)
    ∧ gridWF 1 1 (place_pattern 1 1 [[1]] [[0]] 0 0)
    ∧ gridWF 1 1 (clear_grid 1 1)
    ∧ gridWF 1 1 (fill_random 1 1 fun _ _ => true) :=
  ⟨(ops_preserve_wellformed 1 1).1 [[1]] (by decide),
   (ops_preserve_wellformed 1 1).2.1 [[1]] 0 0 true (by decide),
   (ops_preserve_wellformed 1 1).2.2.1 [[1]] [[0]] 0 0 (by decide)
     (by decide),
   (ops_preserve_wellformed 1 1).2.2.2.1,
   (ops_preserve_wellformed 1 1).2.2.2.2 fun _ _ => true⟩

lemma decodeRow_enc : ∀ row : List Int,
    decodeRow (row.map JValue.num) = some row := by
  intro row
  induction row with
  | nil => rfl
  | cons x xs ih => simp [decodeRow, ih]

lemma decodeRows_enc : ∀ g : Grid,
    decodeRows (g.map fun row => JValue.arr (row.map JValue.num))
      = some g := by
  intro g
  induction g with
  | nil => rfl
  | cons row rows ih => simp [decodeRows, decodeRow_enc, ih]

lemma jLookup_grid (gv sv : JValue) :
    jLookup [("grid", gv), ("stats", sv)] "grid" = some gv := rfl

lemma jLookup_stats (gv sv : JValue) :
    jLookup [("grid", gv), ("stats", sv)] "stats" = some sv := rfl

lemma jToGrid_enc (g : Grid)
    (hrect : ∀ row ∈ g, row.length = (g.headD []).length) :
    jToGrid (JValue.arr (g.map fun row => JValue.arr (row.map JValue.num)))
      = some g := by
  simp only [jToGrid, decodeRows_enc]
  rw [if_pos]
  exact List.all_eq_true.mpr fun r hr => decide_eq_true (hrect r hr)

/-- When serialization does succeed (every persisted field a plain
Python int, so `json.dump` does print a blob), loading that blob
reproduces the grid cell-for-cell and the five persisted statistics
values exactly — the codec logic itself is sound; only the numpy leak
below breaks the round trip. -/
lemma save_load_roundtrip_plain (g : Grid) (st : PyStatistics)
    (s : Session)
    (hrect : ∀ row ∈ g, row.length = (g.headD []).length)
    (blob : JValue) (hsave : save_pattern g st = some blob) :
    (load_pattern blob s).2 = false
    ∧ (load_pattern blob s).1.grid = g
    ∧ (load_pattern blob s).1.stats.generation = st.generation.val
    ∧ (load_pattern blob s).1.stats.population = st.population.val
    ∧ (load_pattern blob s).1.stats.max_population
        = st.max_population.val
    ∧ (load_pattern blob s).1.stats.total_births = st.total_births.val
    ∧ (load_pattern blob s).1.stats.total_deaths
        = st.total_deaths.val := by
  have hg := jToGrid_enc g hrect
  unfold save_pattern at hsave
  split at hsave
  · injection hsave with hblob
    subst hblob
    simp only [load_pattern, jLookup_grid, jLookup_stats, hg]
    refine ⟨?_, ?_, ?_, ?_, ?_, ?_, ?_⟩ <;> first | rfl | trivial
  · exact absurd hsave (by simp)

/-- C8 evaluation: stepping once from the initial statistics stores the
np.int64 result of np.sum into `population` (here on the empty 1x1
grid, the scalar np.int64 0), and `json.dump` then raises TypeError
instead of producing a blob — the source's serialize fails on every
post-step statistics value, so there is nothing for deserialize to
reproduce and the round-trip law is violated. -/
theorem save_fails_on_post_step_stats :
    (update_pystats 1 1 [[0]] {}).population = PyInt.npint 0
    ∧ save_pattern [[0]] (update_pystats 1 1 [[0]] {}) = none :=
  ⟨rfl, rfl⟩

/-- C9 evaluation: on the well-parsed but wrongly-typed blob
`{"grid": [[1, 0]], "stats": 5}` the load fails (the stats read raises,
caught by the source) yet the session grid has already been replaced —
the failed load does NOT leave the existing grid unchanged. -/
theorem load_error_leaves_grid_changed :
    (load_pattern
      (JValue.obj
        [("grid", JValue.arr [JValue.arr [JValue.num 1, JValue.num 0]]),
         ("stats", JValue.num 5)])
      (initSession [[0, 0]])).2 = true
    ∧ (load_pattern
      (JValue.obj
        [("grid", JValue.arr [JValue.arr [JValue.num 1, JValue.num 0]]),
         ("stats", JValue.num 5)])
      (initSession [[0, 0]])).1.grid ≠ (initSession [[0, 0]]).grid := by
  decide
